import Mathlib

/-!
Verification of the ctags prototype-synthesis core of `arduino-cli`
(package `ctags`): a shallow embedding of the parser pipeline
(`Parse`, `parseTag`, the filter passes and the prototype projection)
together with theorems about the filter invariants, the deduplication
behaviour, the template branch, the modifier detection, the line-number
parsing, the code-snippet extraction and the per-run purity of `Parse`.

Strings are modelled as Lean `String`s with character-level index
arithmetic (the inputs of interest are ASCII, where Go's byte indices
and character indices coincide).  A Go runtime panic is modelled as the
value `none` of an `Option` result type.
-/

namespace Ctags

/-! ### Embeddings of the Go `strings` / `strconv` primitives used by the source -/

/-- Index of the first occurrence of `sub` in `l`, `none` if `sub`
does not occur.  Mirrors Go's `strings.Index` (which returns `-1` for
no occurrence). -/
def firstSubIdxL : List Char → List Char → Option Nat
  | [], sub => if sub.isEmpty then some 0 else none
  | c :: rest, sub =>
      if sub.isPrefixOf (c :: rest) then some 0
      else (firstSubIdxL rest sub).map (· + 1)

/-- Index of the last occurrence of `sub` in `l`; mirrors Go's
`strings.LastIndex`. -/
def lastSubIdxL : List Char → List Char → Option Nat
  | [], sub => if sub.isEmpty then some 0 else none
  | c :: rest, sub =>
      match lastSubIdxL rest sub with
      | some i => some (i + 1)
      | none => if sub.isPrefixOf (c :: rest) then some 0 else none

/-- Go `strings.Index`: first index of `sub` in `s`, or `-1`. -/
def goIndex (s sub : String) : Int :=
  match firstSubIdxL s.toList sub.toList with
  | some i => (i : Int)
  | none => -1

/-- Go `strings.LastIndex`: last index of `sub` in `s`, or `-1`. -/
def goLastIndex (s sub : String) : Int :=
  match lastSubIdxL s.toList sub.toList with
  | some i => (i : Int)
  | none => -1

/-- Go `strings.Contains`. -/
def containsB (s sub : String) : Bool :=
  (firstSubIdxL s.toList sub.toList).isSome

/-- Go string slicing `s[i:j]` (character indices; ASCII inputs). -/
def sliceL (s : String) (i j : Nat) : String :=
  (((s.toList).drop i).take (j - i)).asString

/-- Go `s[:n]`. -/
def takeS (s : String) (n : Nat) : String :=
  (s.toList.take n).asString

/-- Go `s[n:]`. -/
def dropS (s : String) (n : Nat) : String :=
  (s.toList.drop n).asString

/-- The white-space characters trimmed by Go's `strings.TrimSpace`
(restricted to ASCII, which is all the tag input ever contains). -/
def goSpace (c : Char) : Bool :=
  c = ' ' || c = '\t' || c = '\n' || c = '\r' || c = '\x0b' || c = '\x0c'

/-- Go `strings.TrimSpace` (ASCII subset). -/
def trimSpace (s : String) : String :=
  (((s.toList.dropWhile goSpace).reverse.dropWhile goSpace).reverse).asString

/-- Go `strings.Split` for a one-character separator (the source only
splits on `"\n"` and `"\t"`). -/
def splitL (sep : Char) : List Char → List (List Char)
  | [] => [[]]
  | c :: rest =>
      match splitL sep rest with
      | [] => [[]]
      | p :: ps => if c = sep then [] :: p :: ps else (c :: p) :: ps

/-- Embedding of `strings.ReplaceAll(s, escaped-backslash, backslash)`
as used on the filename field: collapse every escaped backslash pair
to a single backslash, scanning left to right. -/
def unescapeBackslashesL : List Char → List Char
  | '\\' :: '\\' :: rest => '\\' :: unescapeBackslashesL rest
  | c :: rest => c :: unescapeBackslashesL rest
  | [] => []

def unescapeBackslashes (s : String) : String :=
  (unescapeBackslashesL s.toList).asString

/-- Numeric value of a digit string. -/
def digitsVal (ds : List Char) : Nat :=
  ds.foldl (fun acc c => acc * 10 + (c.toNat - '0'.toNat)) 0

/-- Syntax accepted by Go's `strconv.Atoi` (base 10) for a non-empty
value starting with `c`: an optional sign followed by at least one
decimal digit. -/
def goAtoiAcceptsAux (c : Char) (ds : List Char) : Bool :=
  if c = '+' ∨ c = '-' then !ds.isEmpty && ds.all Char.isDigit
  else (c :: ds).all Char.isDigit

/-- Syntax accepted by Go's `strconv.Atoi` (base 10). -/
def goAtoiAccepts (s : String) : Bool :=
  match s.toList with
  | [] => false
  | c :: ds => goAtoiAcceptsAux c ds

def int64Max : Nat := 9223372036854775807

/-- The value computed by Go's `strconv.Atoi` on a non-empty input
starting with `c`: a syntactically malformed value yields `0`; a
well-formed value yields its (signed) numeric value, clamped to the
64-bit range as `strconv.ParseInt` does on overflow. -/
def goAtoiAux (c : Char) (ds : List Char) : Int :=
  if c = '+' then
    (if !ds.isEmpty && ds.all Char.isDigit then ((min (digitsVal ds) int64Max : Nat) : Int) else 0)
  else if c = '-' then
    (if !ds.isEmpty && ds.all Char.isDigit then -((min (digitsVal ds) (int64Max + 1) : Nat) : Int)
     else 0)
  else
    (if (c :: ds).all Char.isDigit then ((min (digitsVal (c :: ds)) int64Max : Nat) : Int) else 0)

/-- Go `strconv.Atoi` with the error discarded, as the source does
(`val, _ := strconv.Atoi(value)`). -/
def goAtoi (s : String) : Int :=
  match s.toList with
  | [] => 0
  | c :: ds => goAtoiAux c ds

/-! ### The data model (`Tag`, `Prototype`, `Parser`) -/

/-- Embedding of the source's `Tag` struct (a parsed ctags record). -/
structure Tag where
  FunctionName : String := ""
  Kind : String := ""
  Line : Int := 0
  Code : String := ""
  Class : String := ""
  Struct : String := ""
  Namespace : String := ""
  Filename : String := ""
  Typeref : String := ""
  SkipMe : Bool := false
  Signature : String := ""
  Prototype : String := ""
  PrototypeModifiers : String := ""
deriving Repr, DecidableEq

/-- Modelled from the spec: the output unit (§3 "Prototype Record":
function name, final prototype text, modifier text, original line
number).  The `Prototype` struct itself is not among the provided
sources, only its producer `Parse`. -/
structure Prototype where
  FunctionName : String
  PrototypeText : String
  Modifiers : String
  Line : Int
deriving Repr, DecidableEq

/-- Embedding of the source's `Parser` struct: the accumulated tag
sequence and the main file path (paths modelled as strings). -/
structure Parser where
  tags : List Tag := []
  mainFile : String := ""
deriving Repr, DecidableEq

def kindPrototype : String := "prototype"
def kindFunction : String := "function"
def keywordTemplate : String := "template"
def keywordStatic : String := "static"
def keywordExternC : String := "extern \"C\""

/-- Embedding of the source's `knownTagKinds` map. -/
def knownTagKinds (k : String) : Bool :=
  k == "prototype" || k == "function"

/-! ### Record parsing (`parseTag` and helpers) -/

/-- One iteration of the key/value loop in `parseTag`: processes one
tab-separated part, updating the tag and the pending `returntype`
accumulator.  A part without a colon is ignored. -/
def parseField (tag : Tag) (rt : String) (part : String) : Tag × String :=
  match firstSubIdxL part.toList [':'] with
  | none => (tag, rt)
  | some colon =>
      let field := takeS part colon
      let value := trimSpace (dropS part (colon + 1))
      if field = "kind" then ({ tag with Kind := value }, rt)
      else if field = "line" then ({ tag with Line := goAtoi value }, rt)
      else if field = "typeref" then ({ tag with Typeref := value }, rt)
      else if field = "signature" then ({ tag with Signature := value }, rt)
      else if field = "returntype" then (tag, value)
      else if field = "class" then ({ tag with Class := value }, rt)
      else if field = "struct" then ({ tag with Struct := value }, rt)
      else if field = "namespace" then ({ tag with Namespace := value }, rt)
      else (tag, rt)

/-- The key/value loop of `parseTag` over the remaining parts. -/
def parseTagFields : List String → Tag → String → Tag × String
  | [], tag, rt => (tag, rt)
  | part :: rest, tag, rt =>
      let tr := parseField tag rt part
      parseTagFields rest tr.1 tr.2

/-- Embedding of `parseTag`.  `none` models a Go runtime panic:
either the `parts[1]` access on a row with fewer than two
tab-separated fields, or the slice `row[i+2:j]` with `i+2 > j` when
the first `"$/;"` occurs before the first `"/^"` in the row. -/
def parseTag (row : String) : Option Tag :=
  match (splitL '\t' row.toList).map List.asString with
  | p0 :: p1 :: rest =>
      let tag0 : Tag := { FunctionName := p0, Filename := unescapeBackslashes p1 }
      let tr := parseTagFields rest tag0 ""
      let tag2 := { tr.1 with Prototype := tr.2 ++ " " ++ tr.1.FunctionName ++ tr.1.Signature ++ ";" }
      match firstSubIdxL row.toList ['/', '^'], firstSubIdxL row.toList ['$', '/', ';'] with
      | some i, some j =>
          if i + 2 ≤ j then some { tag2 with Code := sliceL row (i + 2) j }
          else none
      | _, _ => some tag2
  | _ => none

/-- Embedding of `removeEmpty`: trim every row, keep the non-empty ones. -/
def removeEmpty (rows : List String) : List String :=
  (rows.map trimSpace).filter (fun r => r.length > 0)

/-! ### The filter/transform passes -/

/-- Embedding of `Parser.skipTagsWhere`: for each record whose skip
flag is still false, set it to the predicate's value. -/
def skipTagsWhere (skipFunc : Tag → Bool) (tags : List Tag) : List Tag :=
  tags.map fun t => if t.SkipMe then t else { t with SkipMe := skipFunc t }

/-- Embedding of `removeTralingSemicolon` (name kept from the source). -/
def removeTralingSemicolon (s : String) : String :=
  (s.toList.dropLast).asString

/-- Embedding of `removeSpacesAndTabs` (two `ReplaceAll`s = a filter). -/
def removeSpacesAndTabs (s : String) : String :=
  (s.toList.filter (fun c => !(c = ' ' || c = '\t'))).asString

/-- Embedding of `isHandled`. -/
def isHandled (tag : Tag) : Bool :=
  !(tag.Class ≠ "" || tag.Struct ≠ "" || tag.Namespace ≠ "")

/-- Embedding of `tagIsUnhandled`. -/
def tagIsUnhandled (tag : Tag) : Bool :=
  !isHandled tag

/-- Embedding of `tagIsUnknown`. -/
def tagIsUnknown (tag : Tag) : Bool :=
  !knownTagKinds tag.Kind

/-- Embedding of `addPrototype`.  The helper `findTemplateMultiline`
(used in the multi-line template branch) is not among the provided
sources; per the spec it consults the Line Source collaborator, so it
is taken here as an abstract parameter `ftm`. -/
def addPrototype (ftm : Tag → String) (tag : Tag) : Tag :=
  if goIndex tag.Prototype keywordTemplate = 0 then
    if goIndex tag.Code keywordTemplate = 0 then
      let code :=
        if containsB tag.Code "\x7b" then takeS tag.Code (goIndex tag.Code "\x7b").toNat
        else takeS tag.Code (goLastIndex tag.Code ")" + 1).toNat
      { tag with Prototype := code ++ ";" }
    else
      { tag with Prototype := ftm tag ++ ";" }
  else
    let mods := if containsB tag.Code (keywordStatic ++ " ") then " " ++ keywordStatic else ""
    { tag with PrototypeModifiers := trimSpace mods }

/-- Embedding of `Parser.addPrototypes`: apply `addPrototype` to every
record whose skip flag is false. -/
def addPrototypes (ftm : Tag → String) (tags : List Tag) : List Tag :=
  tags.map fun t => if t.SkipMe then t else addPrototype ftm t

/-- Embedding of `Parser.removeDefinedProtypes` (name kept from the
source): collect the prototype texts of all `"prototype"`-kind
records, then mark skip on every record whose prototype text is in
that set (the `"prototype"`-kind records themselves included). -/
def removeDefinedProtypes (tags : List Tag) : List Tag :=
  let defined := (tags.filter fun t => t.Kind == kindPrototype).map Tag.Prototype
  tags.map fun t => if defined.contains t.Prototype then { t with SkipMe := true } else t

/-- The loop of `Parser.skipDuplicates`, with the `definedPrototypes`
set made explicit as an accumulator: a record is kept iff its
prototype text is not yet registered and its skip flag is false, and
its text is then registered; every other record is marked skip. -/
def skipDuplicatesFrom (seen : List String) : List Tag → List Tag
  | [] => []
  | t :: ts =>
      if !seen.contains t.Prototype && !t.SkipMe then
        t :: skipDuplicatesFrom (t.Prototype :: seen) ts
      else
        { t with SkipMe := true } :: skipDuplicatesFrom seen ts

/-- Embedding of `Parser.skipDuplicates`. -/
def skipDuplicates (tags : List Tag) : List Tag :=
  skipDuplicatesFrom [] tags

/-- Modelled from the spec: the stage-6 prototype/code consistency
check.  `prototypeAndCodeDontMatch` is called by `Parse` but its body
is not among the provided sources; per the spec (§4.2-6) the
comparison is a deterministic whitespace-insensitive check ("e.g.,
compare after stripping all whitespace"), built here from the source
helpers `removeSpacesAndTabs` and `removeTralingSemicolon`: the
prototype text, with its trailing semicolon removed and spaces and
tabs stripped, must occur inside the similarly stripped code snippet;
an empty snippet fails closed (§7). -/
def prototypeAndCodeDontMatch (tag : Tag) : Bool :=
  let code := removeSpacesAndTabs tag.Code
  let prototype := removeSpacesAndTabs (removeTralingSemicolon tag.Prototype)
  !(containsB code prototype)

/-- Modelled from the spec: the stage-7 extern "C" linkage fix-up.
`fixCLinkageTagsDeclarations` is called by `Parse` but its body is not
among the provided sources; per the spec (§4.2-7) a record detected —
from the surrounding source text — to lie inside an
`extern "C" { ... }` block gets `extern "C"` prepended to its
prototype modifiers.  The detection is abstracted as the predicate
`inExternC`; the pass never touches the skip flag. -/
def fixCLinkageTagsDeclarations (inExternC : Tag → Bool) (tags : List Tag) : List Tag :=
  tags.map fun t =>
    if inExternC t then
      { t with PrototypeModifiers := trimSpace (keywordExternC ++ " " ++ t.PrototypeModifiers) }
    else t

/-- Modelled from the spec: the projection (§4.4) of surviving
(skip=false) records, in original encounter order, 1:1 into Prototype
Records.  `toPrototypes` is called by `Parse` but its body is not
among the provided sources. -/
def toPrototypes (tags : List Tag) : List Prototype :=
  (tags.filter fun t => !t.SkipMe).map fun t =>
    { FunctionName := t.FunctionName, PrototypeText := t.Prototype,
      Modifiers := t.PrototypeModifiers, Line := t.Line }

/-- Minimum of a list of line numbers, `none` for the empty list. -/
def minLine : List Int → Option Int
  | [] => none
  | l :: ls =>
      match minLine ls with
      | none => some l
      | some m => some (min l m)

/-- Modelled from the spec: the insertion-line computation (§4.3).
`findLineWhereToInsertPrototypes` is called by `Parse` but its body is
not among the provided sources; per the spec the result is the
smallest original line number among the surviving (skip=false)
records belonging to the designated main file, with `none` as the
explicit "no insertion required" sentinel. -/
def findLineWhereToInsertPrototypes (mainFile : String) (tags : List Tag) : Option Int :=
  minLine ((tags.filter fun t => !t.SkipMe && t.Filename == mainFile).map Tag.Line)

/-- The pass sequence applied by `Parse`, in the source's order. -/
def ParseSteps (ftm : Tag → String) (inExternC : Tag → Bool) (tags : List Tag) : List Tag :=
  fixCLinkageTagsDeclarations inExternC
    (skipTagsWhere prototypeAndCodeDontMatch
      (skipDuplicates
        (removeDefinedProtypes
          (addPrototypes ftm
            (skipTagsWhere tagIsUnhandled
              (skipTagsWhere tagIsUnknown tags))))))

/-- Parse every row; `none` as soon as one row makes `parseTag`
panic. -/
def collectTags : List String → Option (List Tag)
  | [] => some []
  | r :: rs =>
      match parseTag r, collectTags rs with
      | some t, some ts => some (t :: ts)
      | _, _ => none

/-- Embedding of `Parser.Parse`.  The new rows' tags are appended to
the instance's existing `tags` field, exactly as the source does
(`p.tags = append(p.tags, parseTag(row))`); the updated parser is part
of the result so that reuse of an instance can be reasoned about.
`none` models a Go runtime panic during row parsing.  The two
collaborators whose code is not among the provided sources
(`findTemplateMultiline` and the extern "C" block detection) are
abstract parameters. -/
def Parse (ftm : Tag → String) (inExternC : Tag → Bool) (p : Parser)
    (ctagsOutput : String) (mainFile : String) :
    Option (Parser × List Prototype × Option Int) :=
  let rows := removeEmpty ((splitL '\n' ctagsOutput.toList).map List.asString)
  match collectTags rows with
  | none => none
  | some newTags =>
      let allTags := p.tags ++ newTags
      let finalTags := ParseSteps ftm inExternC allTags
      some ({ tags := finalTags, mainFile := mainFile },
            toPrototypes finalTags,
            findLineWhereToInsertPrototypes mainFile finalTags)

end Ctags

namespace Ctags

/-! ### Helper lemmas: pass lengths, element access, skip preservation -/

theorem get_map_tags (g : Tag → Tag) (tags : List Tag) (i : Nat)
    (h : i < tags.length) (h2 : i < (tags.map g).length) :
    (tags.map g).get ⟨i, h2⟩ = g (tags.get ⟨i, h⟩) := by
  simp

/-- A pass preserves list length and never resets an already-true skip flag. -/
def SkipPres (f : List Tag → List Tag) : Prop :=
  ∀ tags : List Tag, (f tags).length = tags.length ∧
    ∀ (i : Nat) (h : i < tags.length) (h2 : i < (f tags).length),
      (tags.get ⟨i, h⟩).SkipMe = true → ((f tags).get ⟨i, h2⟩).SkipMe = true

theorem skipPres_of_map (g : Tag → Tag) (hg : ∀ t, t.SkipMe = true → (g t).SkipMe = true) :
    SkipPres (fun tags => tags.map g) := by
  intro tags
  refine ⟨by simp, ?_⟩
  intro i h h2 hs
  have := get_map_tags g tags i h h2
  simp only [this]
  exact hg _ hs

theorem skipPres_skipTagsWhere (f : Tag → Bool) : SkipPres (skipTagsWhere f) := by
  have := skipPres_of_map (fun t => if t.SkipMe then t else { t with SkipMe := f t })
    (fun t ht => by simp [ht])
  exact this

theorem skipPres_addPrototypes (ftm : Tag → String) : SkipPres (addPrototypes ftm) := by
  have := skipPres_of_map (fun t => if t.SkipMe then t else addPrototype ftm t)
    (fun t ht => by simp [ht])
  exact this

theorem skipPres_fixCLinkage (inX : Tag → Bool) : SkipPres (fixCLinkageTagsDeclarations inX) := by
  have := skipPres_of_map
    (fun t => if inX t then
        { t with PrototypeModifiers := trimSpace (keywordExternC ++ " " ++ t.PrototypeModifiers) }
      else t)
    (fun t ht => by dsimp only; split <;> simp [ht])
  exact this

theorem get_cons_zero_tag {α : Type} (a : α) (l : List α) (h : 0 < (a :: l).length) :
    (a :: l).get ⟨0, h⟩ = a := rfl

theorem get_congr {α : Type} (l1 l2 : List α) (h : l1 = l2) (i : Nat)
    (h1 : i < l1.length) (h2 : i < l2.length) :
    l1.get ⟨i, h1⟩ = l2.get ⟨i, h2⟩ := by subst h; rfl

theorem get_cons_succ_tag {α : Type} (a : α) (l : List α) (n : Nat)
    (h : n + 1 < (a :: l).length) (h2 : n < l.length) :
    (a :: l).get ⟨n + 1, h⟩ = l.get ⟨n, h2⟩ := rfl

theorem skipPres_removeDefinedProtypes : SkipPres removeDefinedProtypes := by
  intro tags
  refine ⟨by simp [removeDefinedProtypes], ?_⟩
  intro i h h2 hs
  simp only [removeDefinedProtypes] at h2 ⊢
  rw [get_map_tags _ tags i h]
  split <;> simp_all

theorem skipDuplicatesFrom_length :
    ∀ (tags : List Tag) (seen : List String),
      (skipDuplicatesFrom seen tags).length = tags.length := by
  intro tags
  induction tags with
  | nil => intro seen; rfl
  | cons t ts ih =>
      intro seen
      simp only [skipDuplicatesFrom]
      split <;> simp [ih]

theorem skipDuplicatesFrom_skip :
    ∀ (tags : List Tag) (seen : List String) (i : Nat)
      (h : i < tags.length) (h2 : i < (skipDuplicatesFrom seen tags).length),
      (tags.get ⟨i, h⟩).SkipMe = true →
      ((skipDuplicatesFrom seen tags).get ⟨i, h2⟩).SkipMe = true := by
  intro tags
  induction tags with
  | nil => intro seen i h; simp at h
  | cons t ts ih =>
      intro seen i h h2 hs
      by_cases hc : (!seen.contains t.Prototype && !t.SkipMe) = true
      · have hEq : skipDuplicatesFrom seen (t :: ts) =
            t :: skipDuplicatesFrom (t.Prototype :: seen) ts := by
          simp only [skipDuplicatesFrom]
          rw [if_pos hc]
        cases i with
        | zero =>
            have hs0 : t.SkipMe = true := hs
            simp [hs0] at hc
        | succ n =>
            have hn : n < ts.length := Nat.lt_of_succ_lt_succ h
            have h3 : n < (skipDuplicatesFrom (t.Prototype :: seen) ts).length := by
              rw [skipDuplicatesFrom_length]; exact hn
            have h4 : n + 1 < (t :: skipDuplicatesFrom (t.Prototype :: seen) ts).length := by
              simp only [List.length_cons, skipDuplicatesFrom_length]; omega
            rw [get_congr _ _ hEq (n + 1) h2 h4, get_cons_succ_tag _ _ n h4 h3]
            exact ih _ n hn h3 hs
      · have hEq : skipDuplicatesFrom seen (t :: ts) =
            { t with SkipMe := true } :: skipDuplicatesFrom seen ts := by
          simp only [skipDuplicatesFrom]
          rw [if_neg hc]
        cases i with
        | zero =>
            have h4 : 0 < ({ t with SkipMe := true } :: skipDuplicatesFrom seen ts).length := by
              simp
            rw [get_congr _ _ hEq 0 h2 h4, get_cons_zero_tag]
        | succ n =>
            have hn : n < ts.length := Nat.lt_of_succ_lt_succ h
            have h3 : n < (skipDuplicatesFrom seen ts).length := by
              rw [skipDuplicatesFrom_length]; exact hn
            have h4 : n + 1 < ({ t with SkipMe := true } :: skipDuplicatesFrom seen ts).length := by
              simp only [List.length_cons, skipDuplicatesFrom_length]; omega
            rw [get_congr _ _ hEq (n + 1) h2 h4, get_cons_succ_tag _ _ n h4 h3]
            exact ih _ n hn h3 hs

theorem skipPres_skipDuplicates : SkipPres skipDuplicates := by
  intro tags
  exact ⟨skipDuplicatesFrom_length tags [], fun i h h2 hs =>
    skipDuplicatesFrom_skip tags [] i h h2 hs⟩

/-! ### The pipeline as a staged list of passes (for the monotonicity claims) -/

/-- The passes applied by `Parse`, in the source's order. -/
def passList (ftm : Tag → String) (inExternC : Tag → Bool) : List (List Tag → List Tag) :=
  [skipTagsWhere tagIsUnknown, skipTagsWhere tagIsUnhandled, addPrototypes ftm,
   removeDefinedProtypes, skipDuplicates, skipTagsWhere prototypeAndCodeDontMatch,
   fixCLinkageTagsDeclarations inExternC]

def runPasses : List (List Tag → List Tag) → List Tag → List Tag
  | [], tags => tags
  | f :: fs, tags => runPasses fs (f tags)

/-- The state of the record sequence after the first `n` passes of the run. -/
def stage (ftm : Tag → String) (inExternC : Tag → Bool) (n : Nat) (tags : List Tag) : List Tag :=
  runPasses ((passList ftm inExternC).take n) tags

theorem runPasses_append (l1 l2 : List (List Tag → List Tag)) (tags : List Tag) :
    runPasses (l1 ++ l2) tags = runPasses l2 (runPasses l1 tags) := by
  induction l1 generalizing tags with
  | nil => rfl
  | cons f fs ih =>
      show runPasses (fs ++ l2) (f tags) = runPasses l2 (runPasses fs (f tags))
      exact ih (f tags)

theorem skipPres_runPasses :
    ∀ (fs : List (List Tag → List Tag)), (∀ f ∈ fs, SkipPres f) → SkipPres (runPasses fs) := by
  intro fs
  induction fs with
  | nil =>
      intro _ tags
      exact ⟨rfl, fun i h h2 hs => hs⟩
  | cons f fs ih =>
      intro hall tags
      have hf := hall f (by simp)
      have hfs := ih (fun g hg => hall g (by simp [hg]))
      refine ⟨?_, ?_⟩
      · show (runPasses fs (f tags)).length = tags.length
        rw [(hfs (f tags)).1, (hf tags).1]
      · intro i h h2 hs
        have h1 : i < (f tags).length := by rw [(hf tags).1]; exact h
        exact (hfs (f tags)).2 i h1 h2 ((hf tags).2 i h h1 hs)

theorem skipPres_passList (ftm : Tag → String) (inX : Tag → Bool) :
    ∀ f ∈ passList ftm inX, SkipPres f := by
  intro f hf
  simp only [passList, List.mem_cons, List.not_mem_nil, or_false] at hf
  rcases hf with h | h | h | h | h | h | h <;> subst h
  · exact skipPres_skipTagsWhere _
  · exact skipPres_skipTagsWhere _
  · exact skipPres_addPrototypes _
  · exact skipPres_removeDefinedProtypes
  · exact skipPres_skipDuplicates
  · exact skipPres_skipTagsWhere _
  · exact skipPres_fixCLinkage _

theorem ParseSteps_eq_stage (ftm : Tag → String) (inX : Tag → Bool) (tags : List Tag) :
    ParseSteps ftm inX tags = stage ftm inX 7 tags := rfl

theorem stage_succ_of_le (ftm : Tag → String) (inX : Tag → Bool) (tags : List Tag)
    {n m : Nat} (hnm : n ≤ m) :
    stage ftm inX m tags =
      runPasses (((passList ftm inX).take m).drop n) (stage ftm inX n tags) := by
  have h1 : ((passList ftm inX).take m).take n = (passList ftm inX).take n := by
    rw [List.take_take, Nat.min_eq_left hnm]
  show runPasses ((passList ftm inX).take m) tags = _
  conv_lhs => rw [← List.take_append_drop n ((passList ftm inX).take m)]
  rw [runPasses_append, h1]
  rfl

theorem length_ParseSteps (ftm : Tag → String) (inX : Tag → Bool) (tags : List Tag) :
    (ParseSteps ftm inX tags).length = tags.length := by
  rw [ParseSteps_eq_stage]
  have := (skipPres_runPasses ((passList ftm inX).take 7)
    (fun f hf => skipPres_passList ftm inX f (List.mem_of_mem_take hf)) tags).1
  exact this

end Ctags

namespace Ctags

/-- Monotonicity of the skip flag across any span of the pipeline's
stages: shared by the claims about pass ordering. -/
theorem stage_skip_monotone (ftm : Tag → String) (inX : Tag → Bool) (tags : List Tag)
    (n m : Nat) (hnm : n ≤ m) (i : Nat)
    (h : i < (stage ftm inX n tags).length) (h2 : i < (stage ftm inX m tags).length) :
    ((stage ftm inX n tags).get ⟨i, h⟩).SkipMe = true →
    ((stage ftm inX m tags).get ⟨i, h2⟩).SkipMe = true := by
  intro hs
  have hpres : SkipPres (runPasses (((passList ftm inX).take m).drop n)) :=
    skipPres_runPasses _ (fun f hf =>
      skipPres_passList ftm inX f (List.mem_of_mem_take (List.mem_of_mem_drop hf)))
  have hEq := stage_succ_of_le ftm inX tags hnm
  have h2' : i < (runPasses (((passList ftm inX).take m).drop n) (stage ftm inX n tags)).length := by
    rw [← hEq]; exact h2
  have := (hpres (stage ftm inX n tags)).2 i h h2' hs
  rw [get_congr _ _ hEq i h2 h2']
  exact this

/-- Concrete example inputs shared by several witnesses: a trivial
multi-line reconstructor and extern-C detector (the collaborator
parameters that the missing source functions would consult). -/
def ftm0 : Tag → String := fun _ => ""

def inX0 : Tag → Bool := fun _ => false

/-- C1: for every run of the pipeline on any input record sequence, the
skip flag of every Tag Record is monotonic: the pass sequence of
`Parse` is `stage 7`, and once the record at any index has `SkipMe =
true` after `n` passes, it still has `SkipMe = true` after any `m ≥ n`
passes — no later pass resets it to false or observes it false. -/
theorem C1_skip_monotonic :
    (∀ (ftm : Tag → String) (inX : Tag → Bool) (tags : List Tag),
        ParseSteps ftm inX tags = stage ftm inX 7 tags) ∧
    (∀ (ftm : Tag → String) (inX : Tag → Bool) (tags : List Tag) (n m : Nat), n ≤ m →
      ∀ (i : Nat) (h : i < (stage ftm inX n tags).length)
        (h2 : i < (stage ftm inX m tags).length),
        ((stage ftm inX n tags).get ⟨i, h⟩).SkipMe = true →
        ((stage ftm inX m tags).get ⟨i, h2⟩).SkipMe = true) :=
  ⟨fun _ _ _ => rfl,
   fun ftm inX tags n m hnm i h h2 hs => stage_skip_monotone ftm inX tags n m hnm i h h2 hs⟩

/-- Witness for C1: a record of unknown kind is marked skip by the first
pass and is still skipped at the end of the run. -/
theorem C1_skip_monotonic_witness :
    ((stage ftm0 inX0 1 [{ Kind := "junk" }]).get ⟨0, by decide⟩).SkipMe = true ∧
    ((stage ftm0 inX0 7 [{ Kind := "junk" }]).get ⟨0, by decide⟩).SkipMe = true :=
  ⟨by decide,
   C1_skip_monotonic.2 ftm0 inX0 [{ Kind := "junk" }] 1 7 (by decide) 0
     (by decide) (by decide) (by decide)⟩

/-- C4 (code bug): a non-empty input line with fewer than 2
tab-separated fields makes `parseTag` index `parts[1]` out of range —
a Go runtime panic, modelled as `none` — rather than being rejected
explicitly or defaulted.  The panic propagates out of `Parse`. -/
theorem C4_short_line_panics :
    parseTag "foo" = none ∧ Parse ftm0 inX0 {} "foo" "main.ino" = none := by
  constructor <;> rfl

/-- C9 (code bug): a row containing both markers, but with its only
`"$/;"` before the first `"/^"`, drives the snippet slice
`row[i+2:j]` with `i+2 > j` — a Go runtime panic (modelled `none`) —
instead of leaving the snippet absent without a crash. -/
theorem C9_snippet_marker_order_panics :
    containsB "f\tg$/;x/^y" "/^" = true ∧
    containsB "f\tg$/;x/^y" "$/;" = true ∧
    parseTag "f\tg$/;x/^y" = none := by
  refine ⟨rfl, rfl, rfl⟩

/-- C8 counterexample: the `line:` value is parsed by `strconv.Atoi`,
which accepts a sign, so the well-formed negative value `-5` is stored
as the negative line number `-5` — the parsed record's line number is
not non-negative as claimed. -/
theorem C8_counterexample :
    (parseTag "f\tg\tline:-5").map Tag.Line = some (-5) := by
  rfl

/-- C5 (code bug): `Parse` appends the new rows' records to the
instance's `tags` field without resetting it, so its output is not a
pure function of `(ctags output, main file)`: running a second input
on a parser that already ran a first input yields a different output
(the previous run's record leaks into the prototype list and the
insertion line) than running the same second input on a fresh
instance. -/
theorem C5_parse_not_pure :
    (Parse ftm0 inX0 {}
        "foo\tmain.ino\t/^int foo() \x7b$/;\"\tkind:function\tline:2\tsignature:()\treturntype:int"
        "main.ino").isSome = true ∧
    ((Parse ftm0 inX0 {}
        "foo\tmain.ino\t/^int foo() \x7b$/;\"\tkind:function\tline:2\tsignature:()\treturntype:int"
        "main.ino").bind (fun r =>
      Parse ftm0 inX0 r.1
        "bar\tmain.ino\t/^void bar() \x7b$/;\"\tkind:function\tline:5\tsignature:()\treturntype:void"
        "main.ino")) ≠
    Parse ftm0 inX0 {}
        "bar\tmain.ino\t/^void bar() \x7b$/;\"\tkind:function\tline:5\tsignature:()\treturntype:void"
        "main.ino" := by
  exact ⟨rfl, by decide⟩

/-- C2 counterexample: two records share the prototype text `"p"`, the
earliest already carrying skip=true when the duplicate filter runs
(as an earlier pass can produce).  After the filter, a record with
that text survives, but it is the second one — the earliest record of
the set does not survive, refuting "exactly one survives, and it is
the earliest in original order". -/
theorem C2_counterexample :
    ((skipDuplicates [{ Prototype := "p", SkipMe := true }, { Prototype := "p" }]).get
        ⟨0, by decide⟩).SkipMe = true ∧
    ((skipDuplicates [{ Prototype := "p", SkipMe := true }, { Prototype := "p" }]).get
        ⟨1, by decide⟩).SkipMe = false := by
  exact ⟨by decide, by decide⟩

end Ctags

namespace Ctags

/-- Full characterization of survival through `skipDuplicates`'s loop:
an element survives iff it was not already skipped, its prototype text
is not in the incoming `seen` set, and no earlier not-yet-skipped
element carries the same prototype text. -/
theorem skipDuplicatesFrom_survive_iff :
    ∀ (tags : List Tag) (seen : List String) (i : Nat)
      (h : i < tags.length) (h2 : i < (skipDuplicatesFrom seen tags).length),
      (((skipDuplicatesFrom seen tags).get ⟨i, h2⟩).SkipMe = false) ↔
        ((tags.get ⟨i, h⟩).SkipMe = false ∧
         (tags.get ⟨i, h⟩).Prototype ∉ seen ∧
         ∀ j (hj : j < i), ((tags.get ⟨j, Nat.lt_trans hj h⟩).SkipMe = true ∨
            (tags.get ⟨j, Nat.lt_trans hj h⟩).Prototype ≠ (tags.get ⟨i, h⟩).Prototype)) := by
  intro tags
  induction tags with
  | nil => intro seen i h; simp at h
  | cons t ts ih =>
      intro seen i h h2
      by_cases hc : (!seen.contains t.Prototype && !t.SkipMe) = true
      · have hc2 : t.Prototype ∉ seen ∧ t.SkipMe = false := by simpa using hc
        have hskip0 : t.SkipMe = false := hc2.2
        have hseen0 : t.Prototype ∉ seen := hc2.1
        have hEq : skipDuplicatesFrom seen (t :: ts) =
            t :: skipDuplicatesFrom (t.Prototype :: seen) ts := by
          simp only [skipDuplicatesFrom]; rw [if_pos hc]
        cases i with
        | zero =>
            have h4 : 0 < (t :: skipDuplicatesFrom (t.Prototype :: seen) ts).length := by
              simp
            rw [get_congr _ _ hEq 0 h2 h4, get_cons_zero_tag]
            show t.SkipMe = false ↔ _
            simp only [get_cons_zero_tag]
            constructor
            · intro hh
              exact ⟨hh, hseen0, fun j hj => absurd hj (Nat.not_lt_zero j)⟩
            · intro hh
              exact hh.1
        | succ n =>
            have hn : n < ts.length := Nat.lt_of_succ_lt_succ h
            have h3 : n < (skipDuplicatesFrom (t.Prototype :: seen) ts).length := by
              rw [skipDuplicatesFrom_length]; exact hn
            have h4 : n + 1 < (t :: skipDuplicatesFrom (t.Prototype :: seen) ts).length := by
              simp only [List.length_cons, skipDuplicatesFrom_length]; omega
            rw [get_congr _ _ hEq (n + 1) h2 h4, get_cons_succ_tag _ _ n h4 h3]
            rw [ih (t.Prototype :: seen) n hn h3]
            constructor
            · rintro ⟨ha, hb, hcnd⟩
              have hb1 : (ts.get ⟨n, hn⟩).Prototype ≠ t.Prototype := by
                intro hx; exact hb (by rw [hx]; exact List.mem_cons_self _ _)
              have hb2 : (ts.get ⟨n, hn⟩).Prototype ∉ seen := by
                intro hx; exact hb (List.mem_cons_of_mem _ hx)
              refine ⟨ha, hb2, ?_⟩
              intro j hj
              cases j with
              | zero => exact Or.inr (fun hx => hb1 hx.symm)
              | succ k =>
                  have hk : k < n := Nat.lt_of_succ_lt_succ hj
                  exact hcnd k hk
            · rintro ⟨ha, hb, hcnd⟩
              have h0 := hcnd 0 (Nat.succ_pos n)
              have hb1 : (ts.get ⟨n, hn⟩).Prototype ≠ t.Prototype := by
                rcases h0 with h0 | h0
                · have h0' : t.SkipMe = true := h0
                  rw [hskip0] at h0'; cases h0'
                · have h0' : t.Prototype ≠ (ts.get ⟨n, hn⟩).Prototype := h0
                  exact fun hx => h0' hx.symm
              refine ⟨ha, ?_, ?_⟩
              · intro hx
                rcases List.mem_cons.mp hx with hx | hx
                · exact hb1 hx
                · exact hb hx
              · intro j hj
                exact hcnd (j + 1) (Nat.succ_lt_succ hj)
      · have hor : t.Prototype ∈ seen ∨ t.SkipMe = true := by
          by_cases hmem : t.Prototype ∈ seen
          · exact Or.inl hmem
          · cases hskipb : t.SkipMe with
            | true => exact Or.inr rfl
            | false =>
                exfalso
                apply hc
                have hcont : seen.contains t.Prototype = false := by simpa using hmem
                rw [hcont, hskipb]
                rfl
        have hEq : skipDuplicatesFrom seen (t :: ts) =
            { t with SkipMe := true } :: skipDuplicatesFrom seen ts := by
          simp only [skipDuplicatesFrom]; rw [if_neg hc]
        cases i with
        | zero =>
            have h4 : 0 < ({ t with SkipMe := true } :: skipDuplicatesFrom seen ts).length := by
              simp
            rw [get_congr _ _ hEq 0 h2 h4, get_cons_zero_tag]
            show true = false ↔ _
            simp only [get_cons_zero_tag]
            constructor
            · intro hh; exact absurd hh (by simp)
            · rintro ⟨ha, hb, _⟩
              rcases hor with hx | hx
              · exact absurd hx hb
              · rw [hx] at ha; cases ha
        | succ n =>
            have hn : n < ts.length := Nat.lt_of_succ_lt_succ h
            have h3 : n < (skipDuplicatesFrom seen ts).length := by
              rw [skipDuplicatesFrom_length]; exact hn
            have h4 : n + 1 < ({ t with SkipMe := true } :: skipDuplicatesFrom seen ts).length := by
              simp only [List.length_cons, skipDuplicatesFrom_length]; omega
            rw [get_congr _ _ hEq (n + 1) h2 h4, get_cons_succ_tag _ _ n h4 h3]
            rw [ih seen n hn h3]
            constructor
            · rintro ⟨ha, hb, hcnd⟩
              refine ⟨ha, hb, ?_⟩
              intro j hj
              cases j with
              | zero =>
                  rcases hor with hx | hx
                  · refine Or.inr ?_
                    intro hy
                    have hy' : t.Prototype = (ts.get ⟨n, hn⟩).Prototype := hy
                    exact hb (hy' ▸ hx)
                  · exact Or.inl hx
              | succ k => exact hcnd k (Nat.lt_of_succ_lt_succ hj)
            · rintro ⟨ha, hb, hcnd⟩
              exact ⟨ha, hb, fun j hj => hcnd (j + 1) (Nat.succ_lt_succ hj)⟩

end Ctags

namespace Ctags

/-- Counting lemma for the duplicate filter: among records with
prototype text `P`, the number of surviving (unskipped) records after
the loop is zero if `P` was already registered, and otherwise exactly
one provided at least one record with text `P` entered unskipped. -/
theorem skipDuplicatesFrom_countP (P : String) :
    ∀ (tags : List Tag) (seen : List String),
      (skipDuplicatesFrom seen tags).countP (fun t => t.Prototype == P && !t.SkipMe) =
        if P ∈ seen then 0
        else min 1 (tags.countP (fun t => t.Prototype == P && !t.SkipMe)) := by
  intro tags
  induction tags with
  | nil =>
      intro seen
      simp only [skipDuplicatesFrom, List.countP_nil]
      split <;> simp
  | cons t ts ih =>
      intro seen
      by_cases hc : (!seen.contains t.Prototype && !t.SkipMe) = true
      · have hc2 : t.Prototype ∉ seen ∧ t.SkipMe = false := by simpa using hc
        have hEq : skipDuplicatesFrom seen (t :: ts) =
            t :: skipDuplicatesFrom (t.Prototype :: seen) ts := by
          simp only [skipDuplicatesFrom]; rw [if_pos hc]
        rw [hEq, List.countP_cons, ih (t.Prototype :: seen)]
        by_cases hP : t.Prototype = P
        · subst hP
          simp only [List.mem_cons, true_or, if_true, beq_self_eq_true, hc2.2,
            Bool.not_false, Bool.and_self, if_pos]
          have hnot : t.Prototype ∉ seen := hc2.1
          rw [if_neg hnot, List.countP_cons]
          simp only [beq_self_eq_true, hc2.2, Bool.not_false, Bool.and_self, if_true]
          omega
        · have hP' : ¬(P = t.Prototype) := fun hx => hP hx.symm
          have hpred : (t.Prototype == P && !t.SkipMe) = false := by
            simp [hP]
          rw [List.countP_cons]
          simp only [hpred, if_false, List.mem_cons, hP', false_or]
          split <;> simp
      · have hor : t.Prototype ∈ seen ∨ t.SkipMe = true := by
          by_cases hmem : t.Prototype ∈ seen
          · exact Or.inl hmem
          · cases hskipb : t.SkipMe with
            | true => exact Or.inr rfl
            | false =>
                exfalso
                apply hc
                have hcont : seen.contains t.Prototype = false := by simpa using hmem
                rw [hcont, hskipb]
                rfl
        have hEq : skipDuplicatesFrom seen (t :: ts) =
            { t with SkipMe := true } :: skipDuplicatesFrom seen ts := by
          simp only [skipDuplicatesFrom]; rw [if_neg hc]
        rw [hEq, List.countP_cons, ih seen, List.countP_cons]
        have hpred0 : ((({ t with SkipMe := true } : Tag)).Prototype == P &&
            !(({ t with SkipMe := true } : Tag)).SkipMe) = false := by
          simp
        simp only [hpred0, if_false, Nat.add_zero]
        rcases hor with hx | hx
        · by_cases hP : t.Prototype = P
          · subst hP
            simp [hx]
          · have hpred : (t.Prototype == P && !t.SkipMe) = false := by simp [hP]
            simp [hpred]
        · have hpred : (t.Prototype == P && !t.SkipMe) = false := by simp [hx]
          simp [hpred]

/-- C2 (amended): after the duplicate filter, a record survives iff it
was not already skipped and no earlier not-yet-skipped record carries
the same prototype text (so the survivor for a text is the earliest
not-yet-skipped record with that text, and all later ones are marked
skip); and for every prototype text with at least one not-yet-skipped
record, exactly one record with that text survives. -/
theorem C2_dedup_amended :
    ∀ tags : List Tag,
      (∀ P : String, 0 < tags.countP (fun t => t.Prototype == P && !t.SkipMe) →
        (skipDuplicates tags).countP (fun t => t.Prototype == P && !t.SkipMe) = 1) ∧
      (∀ (i : Nat) (h : i < tags.length) (h2 : i < (skipDuplicates tags).length),
        (((skipDuplicates tags).get ⟨i, h2⟩).SkipMe = false ↔
          ((tags.get ⟨i, h⟩).SkipMe = false ∧
           ∀ j (hj : j < i), ((tags.get ⟨j, Nat.lt_trans hj h⟩).SkipMe = true ∨
              (tags.get ⟨j, Nat.lt_trans hj h⟩).Prototype ≠ (tags.get ⟨i, h⟩).Prototype)))) := by
  intro tags
  constructor
  · intro P hpos
    have hcnt := skipDuplicatesFrom_countP P tags []
    rw [skipDuplicates, hcnt]
    simp only [List.not_mem_nil, if_false]
    omega
  · intro i h h2
    have hiff := skipDuplicatesFrom_survive_iff tags [] i h h2
    constructor
    · intro hs
      have hh := hiff.mp hs
      exact ⟨hh.1, hh.2.2⟩
    · intro hs
      exact hiff.mpr ⟨hs.1, by simp, hs.2⟩

/-- Witness for the amended C2: three records share text `"p"`, the
first already skipped; the filter leaves exactly one survivor with
that text, namely the earliest not-yet-skipped record (index 1). -/
theorem C2_dedup_amended_witness :
    (skipDuplicates [{ Prototype := "p", SkipMe := true }, { Prototype := "p" },
        { Prototype := "p" }]).countP (fun t => t.Prototype == "p" && !t.SkipMe) = 1 ∧
    ((skipDuplicates [{ Prototype := "p", SkipMe := true }, { Prototype := "p" },
        { Prototype := "p" }]).get ⟨1, by decide⟩).SkipMe = false :=
  ⟨(C2_dedup_amended _).1 "p" (by decide),
   ((C2_dedup_amended [{ Prototype := "p", SkipMe := true }, { Prototype := "p" },
        { Prototype := "p" }]).2 1 (by decide) (by decide)).mpr (by decide)⟩

end Ctags

namespace Ctags

/-- The record sequence just before the already-declared filter runs
(after the kind/scope filters and prototype generation). -/
def preDeclStage (ftm : Tag → String) (tags : List Tag) : List Tag :=
  addPrototypes ftm (skipTagsWhere tagIsUnhandled (skipTagsWhere tagIsUnknown tags))

/-- The pass `removeDefinedProtypes` marks skip on every record whose prototype
text equals that of some `"prototype"`-kind record. -/
theorem removeDefinedProtypes_marks (tags : List Tag) (i j : Nat)
    (hi : i < tags.length) (hj : j < tags.length)
    (hkj : (tags.get ⟨j, hj⟩).Kind = kindPrototype)
    (hpp : (tags.get ⟨j, hj⟩).Prototype = (tags.get ⟨i, hi⟩).Prototype)
    (h2 : i < (removeDefinedProtypes tags).length) :
    ((removeDefinedProtypes tags).get ⟨i, h2⟩).SkipMe = true := by
  simp only [removeDefinedProtypes] at h2 ⊢
  rw [get_map_tags _ tags i hi]
  have hmem : (tags.get ⟨i, hi⟩).Prototype ∈
      (tags.filter (fun t => t.Kind == kindPrototype)).map Tag.Prototype := by
    rw [← hpp]
    exact List.mem_map_of_mem _
      (List.mem_filter.mpr ⟨List.get_mem tags j hj, by simp only [beq_iff_eq]; exact hkj⟩)
  have hcont : ((tags.filter (fun t => t.Kind == kindPrototype)).map Tag.Prototype).contains
      (tags.get ⟨i, hi⟩).Prototype = true := by simpa using hmem
  rw [if_pos hcont]

/-- C3: the already-declared filter collects the prototype texts of the
`"prototype"`-kind records (as they stand when the filter runs) and
marks skip on every other record whose prototype text exactly matches
one of them; such a record is still skipped at the end of the run. -/
theorem C3_already_declared :
    ∀ (ftm : Tag → String) (inX : Tag → Bool) (tags : List Tag) (i j : Nat)
      (hi : i < (preDeclStage ftm tags).length) (hj : j < (preDeclStage ftm tags).length)
      (h2 : i < (ParseSteps ftm inX tags).length),
      ((preDeclStage ftm tags).get ⟨j, hj⟩).Kind = kindPrototype →
      ((preDeclStage ftm tags).get ⟨i, hi⟩).Kind ≠ kindPrototype →
      ((preDeclStage ftm tags).get ⟨j, hj⟩).Prototype =
        ((preDeclStage ftm tags).get ⟨i, hi⟩).Prototype →
      ((ParseSteps ftm inX tags).get ⟨i, h2⟩).SkipMe = true := by
  intro ftm inX tags i j hi hj h2 hkj hki hpp
  have hrm : i < (removeDefinedProtypes (preDeclStage ftm tags)).length := by
    simp only [removeDefinedProtypes, List.length_map]
    exact hi
  have hstep : ((removeDefinedProtypes (preDeclStage ftm tags)).get ⟨i, hrm⟩).SkipMe = true :=
    removeDefinedProtypes_marks (preDeclStage ftm tags) i j hi hj hkj hpp hrm
  have hrest : SkipPres (runPasses [skipDuplicates,
      skipTagsWhere prototypeAndCodeDontMatch, fixCLinkageTagsDeclarations inX]) := by
    apply skipPres_runPasses
    intro f hf
    simp only [List.mem_cons, List.not_mem_nil, or_false] at hf
    rcases hf with hf | hf | hf <;> subst hf
    · exact skipPres_skipDuplicates
    · exact skipPres_skipTagsWhere _
    · exact skipPres_fixCLinkage _
  have hPS : ParseSteps ftm inX tags =
      runPasses [skipDuplicates, skipTagsWhere prototypeAndCodeDontMatch,
        fixCLinkageTagsDeclarations inX]
        (removeDefinedProtypes (preDeclStage ftm tags)) := rfl
  have h2' : i < (runPasses [skipDuplicates, skipTagsWhere prototypeAndCodeDontMatch,
      fixCLinkageTagsDeclarations inX]
      (removeDefinedProtypes (preDeclStage ftm tags))).length := by
    rw [← hPS]; exact h2
  have hfin := (hrest (removeDefinedProtypes (preDeclStage ftm tags))).2 i hrm h2' hstep
  rw [get_congr _ _ hPS i h2 h2']
  exact hfin

/-- A concrete input for the C3 scenario: an explicit forward
declaration of `void foo();` plus a function record deriving the same
prototype text. -/
def tagsC3 : List Tag :=
  [{ FunctionName := "foo", Kind := "prototype", Line := 1, Filename := "sketch.ino",
     Signature := "()", Prototype := "void foo();" },
   { FunctionName := "foo", Kind := "function", Line := 3, Filename := "sketch.ino",
     Signature := "()", Prototype := "void foo();" }]

/-- Witness for C3: in the concrete scenario the function record whose
derived prototype text equals that of the `"prototype"`-kind record
ends the run with skip=true. -/
theorem C3_already_declared_witness :
    ((preDeclStage ftm0 tagsC3).get ⟨0, by decide⟩).Kind = kindPrototype ∧
    ((ParseSteps ftm0 inX0 tagsC3).get ⟨1, by decide⟩).SkipMe = true :=
  ⟨by decide,
   C3_already_declared ftm0 inX0 tagsC3 1 0 (by decide) (by decide) (by decide)
     (by decide) (by decide) (by decide)⟩

end Ctags

namespace Ctags

/-! ### String lemmas bridging the Go index operations to positional
descriptions (for the template-branch and modifier claims) -/

theorem firstSubIdxL_zero_iff (l sub : List Char) :
    firstSubIdxL l sub = some 0 ↔ sub.isPrefixOf l = true := by
  cases l with
  | nil => cases sub <;> simp [firstSubIdxL, List.isPrefixOf]
  | cons c rest =>
      simp only [firstSubIdxL]
      split
      next hp => simp [hp]
      next hnp =>
          constructor
          · intro hcontr
            rcases hfi : firstSubIdxL rest sub with _ | k <;> rw [hfi] at hcontr <;> simp at hcontr
          · intro hcontr; exact absurd hcontr hnp

theorem goIndex_eq_zero_iff (s sub : String) :
    goIndex s sub = 0 ↔ sub.toList.isPrefixOf s.toList = true := by
  rw [← firstSubIdxL_zero_iff]
  unfold goIndex
  rcases hfi : firstSubIdxL s.toList sub.toList with _ | k <;> simp [hfi]

theorem firstSubIdxL_isSome_single (c : Char) :
    ∀ l : List Char, (firstSubIdxL l [c]).isSome = l.contains c := by
  intro l
  induction l with
  | nil => simp [firstSubIdxL]
  | cons x xs ih =>
      simp only [firstSubIdxL]
      by_cases hx : c = x
      · subst hx
        have hp : ([c].isPrefixOf (c :: xs)) = true := by
          show (c == c && List.isPrefixOf [] xs) = true
          simp
        rw [if_pos hp]
        simp [List.contains_cons]
      · have hp : ([c].isPrefixOf (x :: xs)) = false := by
          show (c == x && List.isPrefixOf [] xs) = false
          simp [hx]
        have hcx : (c == x) = false := by simp [hx]
        rw [if_neg (by simp [hp]), Option.isSome_map', ih, List.contains_cons, hcx]
        simp

theorem take_firstIdx_eq_takeWhile (c : Char) :
    ∀ (l : List Char) (i : Nat), firstSubIdxL l [c] = some i →
      l.take i = l.takeWhile (fun x => !(x == c)) := by
  intro l
  induction l with
  | nil => intro i hcontr; simp [firstSubIdxL] at hcontr
  | cons x xs ih =>
      intro i hi
      by_cases hx : c = x
      · subst hx
        have hp : ([c].isPrefixOf (c :: xs)) = true := by
          show (c == c && List.isPrefixOf [] xs) = true
          simp
        rw [firstSubIdxL, if_pos hp] at hi
        have hz : i = 0 := by injection hi with hh; omega
        subst hz
        simp [List.takeWhile_cons]
      · have hp : ([c].isPrefixOf (x :: xs)) = false := by
          show (c == x && List.isPrefixOf [] xs) = false
          simp [hx]
        rw [firstSubIdxL, if_neg (by simp [hp])] at hi
        rcases hfi : firstSubIdxL xs [c] with _ | k <;> rw [hfi] at hi
        · simp at hi
        · have hi2 : some (k + 1) = some i := hi
          injection hi2 with hh
          subst hh
          have hxc : (x == c) = false := by
            simp
            exact fun hcontr => hx hcontr.symm
          simp only [List.takeWhile_cons, hxc, Bool.not_false, if_true]
          show x :: xs.take k = x :: xs.takeWhile (fun y => !(y == c))
          exact congrArg (x :: .) (ih k hfi)

theorem lastSubIdxL_isSome_single (c : Char) :
    ∀ l : List Char, (lastSubIdxL l [c]).isSome = l.contains c := by
  intro l
  induction l with
  | nil => simp [lastSubIdxL]
  | cons x xs ih =>
      simp only [lastSubIdxL]
      rcases hlast : lastSubIdxL xs [c] with _ | k
      · rw [hlast] at ih
        have ihf : xs.contains c = false := by simpa using ih.symm
        by_cases hx : c = x
        · subst hx
          have hp : ([c].isPrefixOf (c :: xs)) = true := by
            show (c == c && List.isPrefixOf [] xs) = true
            simp
          rw [if_pos hp]
          simp [List.contains_cons]
        · have hp : ([c].isPrefixOf (x :: xs)) = false := by
            show (c == x && List.isPrefixOf [] xs) = false
            simp [hx]
          have hcx : (c == x) = false := by simp [hx]
          rw [if_neg (by simp [hp]), List.contains_cons, hcx, ihf]
          simp
      · rw [hlast] at ih
        have iht : xs.contains c = true := by simpa using ih.symm
        rw [List.contains_cons, iht]
        simp

theorem dropWhile_append_stop (p : Char → Bool) :
    ∀ (a b : List Char), (∃ y ∈ a, p y = false) →
      (a ++ b).dropWhile p = a.dropWhile p ++ b := by
  intro a
  induction a with
  | nil => intro b hcontr; rcases hcontr with ⟨y, hy, _⟩; simp at hy
  | cons x xs ih =>
      intro b hex
      cases hpx : p x with
      | false => simp [List.dropWhile_cons, hpx]
      | true =>
          have hex2 : ∃ y ∈ xs, p y = false := by
            rcases hex with ⟨y, hy, hpy⟩
            rcases List.mem_cons.mp hy with hy | hy
            · subst hy; rw [hpx] at hpy; cases hpy
            · exact ⟨y, hy, hpy⟩
          simp [List.dropWhile_cons, hpx, ih b hex2]

theorem dropWhile_append_all (p : Char → Bool) :
    ∀ (a b : List Char), (∀ y ∈ a, p y = true) →
      (a ++ b).dropWhile p = b.dropWhile p := by
  intro a
  induction a with
  | nil => intro b _; rfl
  | cons x xs ih =>
      intro b hall
      have hpx : p x = true := hall x (List.mem_cons_self x xs)
      simp [List.dropWhile_cons, hpx, ih b (fun y hy => hall y (List.mem_cons_of_mem x hy))]

theorem take_lastIdx_eq (c : Char) :
    ∀ (l : List Char) (i : Nat), lastSubIdxL l [c] = some i →
      l.take (i + 1) = (l.reverse.dropWhile (fun x => !(x == c))).reverse := by
  intro l
  induction l with
  | nil => intro i hcontr; simp [lastSubIdxL] at hcontr
  | cons x xs ih =>
      intro i hi
      rcases hlast : lastSubIdxL xs [c] with _ | k
      · rw [lastSubIdxL, hlast] at hi
        by_cases hx : c = x
        · subst hx
          have hp : ([c].isPrefixOf (c :: xs)) = true := by
            show (c == c && List.isPrefixOf [] xs) = true
            simp
          rw [if_pos hp] at hi
          injection hi with hh
          subst hh
          have hncb : xs.contains c = false := by
            have hiso := lastSubIdxL_isSome_single c xs
            rw [hlast] at hiso
            exact hiso.symm
          have hnc : c ∉ xs := by simpa using hncb
          have hall : ∀ y ∈ xs.reverse, (!(y == c)) = true := by
            intro y hy
            have hy2 : y ∈ xs := List.mem_reverse.mp hy
            have hyne : ¬(y = c) := fun hcontr => hnc (hcontr ▸ hy2)
            simp [hyne]
          rw [List.reverse_cons, dropWhile_append_all _ _ _ hall]
          simp [List.dropWhile_cons]
        · have hp : ([c].isPrefixOf (x :: xs)) = false := by
            show (c == x && List.isPrefixOf [] xs) = false
            simp [hx]
          rw [if_neg (by simp [hp])] at hi
          cases hi
      · rw [lastSubIdxL, hlast] at hi
        injection hi with hh
        subst hh
        have hmemb : xs.contains c = true := by
          have hiso := lastSubIdxL_isSome_single c xs
          rw [hlast] at hiso
          exact hiso.symm
        have hmem : c ∈ xs := by simpa using hmemb
        have hex : ∃ y ∈ xs.reverse, (!(y == c)) = false :=
          ⟨c, List.mem_reverse.mpr hmem, by simp⟩
        rw [List.reverse_cons, dropWhile_append_stop _ _ _ hex, List.reverse_append]
        simp only [List.reverse_cons, List.reverse_nil, List.nil_append, List.singleton_append]
        show x :: xs.take (k + 1) = x :: (xs.reverse.dropWhile (fun y => !(y == c))).reverse
        exact congrArg (x :: .) (ih k hlast)

end Ctags

namespace Ctags

/-- C6: for an unskipped record whose derived prototype text and code
snippet both start with `"template"`, prototype generation replaces the
prototype text by the snippet truncated before the first brace — or,
when the snippet has no brace, truncated up to and including the last
`')'` (empty when there is no `')'` either) — with `";"` appended. -/
theorem C6_template_branch :
    ∀ (ftm : Tag → String) (tags : List Tag) (i : Nat)
      (h : i < tags.length) (h2 : i < (addPrototypes ftm tags).length),
      (tags.get ⟨i, h⟩).SkipMe = false →
      keywordTemplate.toList.isPrefixOf (tags.get ⟨i, h⟩).Prototype.toList = true →
      keywordTemplate.toList.isPrefixOf (tags.get ⟨i, h⟩).Code.toList = true →
      ((addPrototypes ftm tags).get ⟨i, h2⟩).Prototype =
        (if (tags.get ⟨i, h⟩).Code.toList.contains '{' then
            ((tags.get ⟨i, h⟩).Code.toList.takeWhile (fun x => !(x == '{'))).asString
          else
            (((tags.get ⟨i, h⟩).Code.toList.reverse.dropWhile (fun x => !(x == ')'))).reverse).asString)
          ++ ";" := by
  intro ftm tags i h h2 hskip hpro hcode
  simp only [addPrototypes]
  rw [get_map_tags _ tags i h]
  rw [if_neg (by rw [hskip]; simp)]
  unfold addPrototype
  rw [if_pos ((goIndex_eq_zero_iff _ _).mpr hpro), if_pos ((goIndex_eq_zero_iff _ _).mpr hcode)]
  show (if containsB (tags.get ⟨i, h⟩).Code "\x7b" then
      takeS (tags.get ⟨i, h⟩).Code (goIndex (tags.get ⟨i, h⟩).Code "\x7b").toNat
    else takeS (tags.get ⟨i, h⟩).Code (goLastIndex (tags.get ⟨i, h⟩).Code ")" + 1).toNat) ++ ";" = _
  congr 1
  cases hbrace : (tags.get ⟨i, h⟩).Code.toList.contains '{' with
  | true =>
      have hfs : (firstSubIdxL (tags.get ⟨i, h⟩).Code.toList ['{']).isSome = true := by
        rw [firstSubIdxL_isSome_single]; exact hbrace
      obtain ⟨k, hk⟩ := Option.isSome_iff_exists.mp hfs
      have hcb : containsB (tags.get ⟨i, h⟩).Code "\x7b" = true := by
        show (firstSubIdxL (tags.get ⟨i, h⟩).Code.toList "\x7b".toList).isSome = true
        rw [show "\x7b".toList = ['{'] from rfl]
        exact hfs
      rw [if_pos hcb, if_pos rfl]
      have hgi : goIndex (tags.get ⟨i, h⟩).Code "\x7b" = (k : Int) := by
        unfold goIndex
        rw [show "\x7b".toList = ['{'] from rfl, hk]
      rw [hgi]
      show ((tags.get ⟨i, h⟩).Code.toList.take ((k : Int)).toNat).asString = _
      have hkk : ((k : Int)).toNat = k := by omega
      rw [hkk, take_firstIdx_eq_takeWhile '{' _ k hk]
  | false =>
      have hfs : (firstSubIdxL (tags.get ⟨i, h⟩).Code.toList ['{']).isSome = false := by
        rw [firstSubIdxL_isSome_single]; exact hbrace
      have hcb : containsB (tags.get ⟨i, h⟩).Code "\x7b" = false := by
        show (firstSubIdxL (tags.get ⟨i, h⟩).Code.toList "\x7b".toList).isSome = false
        rw [show "\x7b".toList = ['{'] from rfl]
        exact hfs
      rw [if_neg (by rw [hcb]; simp), if_neg (by simp)]
      rcases hlast : lastSubIdxL (tags.get ⟨i, h⟩).Code.toList [')'] with _ | k
      · have hgl : goLastIndex (tags.get ⟨i, h⟩).Code ")" = -1 := by
          unfold goLastIndex
          rw [show ")".toList = [')'] from rfl, hlast]
        rw [hgl]
        have hz : ((-1 : Int) + 1).toNat = 0 := by omega
        show ((tags.get ⟨i, h⟩).Code.toList.take (((-1 : Int) + 1)).toNat).asString = _
        rw [hz]
        have hnc : (tags.get ⟨i, h⟩).Code.toList.contains ')' = false := by
          have hiso := lastSubIdxL_isSome_single ')' (tags.get ⟨i, h⟩).Code.toList
          rw [hlast] at hiso
          exact hiso.symm
        have hnc2 : ')' ∉ (tags.get ⟨i, h⟩).Code.toList := by simpa using hnc
        have hdw : (tags.get ⟨i, h⟩).Code.toList.reverse.dropWhile (fun x => !(x == ')')) = [] := by
          rw [List.dropWhile_eq_nil_iff]
          intro y hy
          have hy2 : y ∈ (tags.get ⟨i, h⟩).Code.toList := List.mem_reverse.mp hy
          have hyne : ¬(y = ')') := fun hcontr => hnc2 (hcontr ▸ hy2)
          simp [hyne]
        rw [hdw]
        simp
      · have hgl : goLastIndex (tags.get ⟨i, h⟩).Code ")" = (k : Int) := by
          unfold goLastIndex
          rw [show ")".toList = [')'] from rfl, hlast]
        rw [hgl]
        have hkk : ((k : Int) + 1).toNat = k + 1 := by omega
        show ((tags.get ⟨i, h⟩).Code.toList.take (((k : Int) + 1)).toNat).asString = _
        rw [hkk, take_lastIdx_eq ')' _ k hlast]

/-- The spec's concrete template record. -/
def tagC6 : Tag :=
  { FunctionName := "max", Kind := "function",
    Prototype := "template <typename T> T max(T a, T b);",
    Code := "template <typename T> T max(T a, T b) \x7b" }

/-- Witness for C6: the snippet
`"template <typename T> T max(T a, T b) {"` yields the final prototype
text `"template <typename T> T max(T a, T b) ;"`. -/
theorem C6_template_branch_witness :
    ((addPrototypes ftm0 [tagC6]).get ⟨0, by decide⟩).Prototype =
      "template <typename T> T max(T a, T b) ;" := by
  rw [C6_template_branch ftm0 [tagC6] 0 (by decide) (by decide) (by decide) (by decide)
    (by decide)]
  decide

end Ctags

namespace Ctags

/-! ### Insertion-line computation (C7) and line-value parsing (C8) -/

theorem minLine_spec :
    ∀ l : List Int,
      (minLine l = none ↔ l = []) ∧
      (∀ m, minLine l = some m → m ∈ l ∧ ∀ x ∈ l, m ≤ x) := by
  intro l
  induction l with
  | nil =>
      exact ⟨by simp [minLine], fun m hm => by simp [minLine] at hm⟩
  | cons a as ih =>
      constructor
      · constructor
        · intro hm
          rw [minLine] at hm
          rcases hma : minLine as with _ | k <;> rw [hma] at hm <;> cases hm
        · intro hcontr; cases hcontr
      · intro m hm
        rw [minLine] at hm
        rcases hma : minLine as with _ | k <;> rw [hma] at hm
        · injection hm with hh
          subst hh
          have hase : as = [] := (ih.1).mp hma
          subst hase
          refine ⟨List.mem_cons_self _ _, ?_⟩
          intro x hx
          rcases List.mem_cons.mp hx with hx | hx
          · subst hx; exact le_refl _
          · simp at hx
        · injection hm with hh
          subst hh
          have hk := ih.2 k hma
          constructor
          · rcases le_or_lt a k with hak | hak
            · rw [min_eq_left hak]; exact List.mem_cons_self _ _
            · rw [min_eq_right (le_of_lt hak)]
              exact List.mem_cons_of_mem _ hk.1
          · intro x hx
            rcases List.mem_cons.mp hx with hx | hx
            · subst hx; exact min_le_left _ _
            · exact le_trans (min_le_right a k) (hk.2 x hx)

/-- C7: the insertion line is the smallest original line number among
the surviving (skip=false) records of the designated main file, and
the result is the explicit sentinel `none` — not a line number — iff
no such record survives.  (`findLineWhereToInsertPrototypes` is
modelled from the spec; only its caller is among the sources.) -/
theorem C7_insertion_line :
    ∀ (mainFile : String) (tags : List Tag),
      (findLineWhereToInsertPrototypes mainFile tags = none ↔
        (tags.filter fun t => !t.SkipMe && t.Filename == mainFile) = []) ∧
      (∀ m, findLineWhereToInsertPrototypes mainFile tags = some m →
        m ∈ (tags.filter fun t => !t.SkipMe && t.Filename == mainFile).map Tag.Line ∧
        ∀ l ∈ (tags.filter fun t => !t.SkipMe && t.Filename == mainFile).map Tag.Line,
          m ≤ l) := by
  intro mainFile tags
  constructor
  · rw [findLineWhereToInsertPrototypes,
      (minLine_spec ((tags.filter fun t => !t.SkipMe && t.Filename == mainFile).map Tag.Line)).1,
      List.map_eq_nil_iff]
  · intro m hm
    exact (minLine_spec _).2 m hm

/-- Concrete records for the C7 scenario: surviving records of the
main file at original lines 12, 45 and 7. -/
def tagsC7 : List Tag :=
  [{ Filename := "main.ino", Line := 12 }, { Filename := "main.ino", Line := 45 },
   { Filename := "main.ino", Line := 7 }]

/-- Witness for C7: surviving records at original lines 12, 45, 7 give
insertion line 7, which is a member of the surviving lines and a lower
bound of them. -/
theorem C7_insertion_line_witness :
    findLineWhereToInsertPrototypes "main.ino" tagsC7 = some 7 ∧
    (7 : Int) ∈ (tagsC7.filter fun t => !t.SkipMe && t.Filename == "main.ino").map Tag.Line ∧
    ∀ l ∈ (tagsC7.filter fun t => !t.SkipMe && t.Filename == "main.ino").map Tag.Line,
      (7 : Int) ≤ l :=
  ⟨by decide, (C7_insertion_line "main.ino" tagsC7).2 7 (by decide)⟩

theorem goAtoi_cons (s : String) (c : Char) (ds : List Char) (h : s.toList = c :: ds) :
    goAtoi s = goAtoiAux c ds := by
  unfold goAtoi; rw [h]

theorem goAtoiAccepts_cons (s : String) (c : Char) (ds : List Char) (h : s.toList = c :: ds) :
    goAtoiAccepts s = goAtoiAcceptsAux c ds := by
  unfold goAtoiAccepts; rw [h]

/-- C8 (amended): the `line:` value is handed to `strconv.Atoi` with
the error discarded: a syntactically malformed value yields 0 rather
than failing the record, but the accepted syntax is a *signed*
integer, so the stored line number can be negative. -/
theorem C8_line_parse_amended :
    (∀ s : String, goAtoiAccepts s = false → goAtoi s = 0) ∧
    (∀ (tag : Tag) (rt v : String),
      parseField tag rt ("line:" ++ v) = ({ tag with Line := goAtoi (trimSpace v) }, rt)) := by
  constructor
  · intro s hs
    rcases hl : s.toList with _ | ⟨c, ds⟩
    · unfold goAtoi; rw [hl]
    · rw [goAtoi_cons s c ds hl]
      rw [goAtoiAccepts_cons s c ds hl] at hs
      unfold goAtoiAcceptsAux at hs
      unfold goAtoiAux
      by_cases hc1 : c = '+'
      · rw [if_pos (Or.inl hc1)] at hs
        rw [if_pos hc1, hs]
        simp
      · by_cases hc2 : c = '-'
        · rw [if_pos (Or.inr hc2)] at hs
          rw [if_neg hc1, if_pos hc2, hs]
          simp
        · rw [if_neg (fun hor => hor.elim hc1 hc2)] at hs
          rw [if_neg hc1, if_neg hc2, hs]
          simp
  · intro tag rt v
    unfold parseField
    rw [show ("line:" ++ v).toList = 'l' :: 'i' :: 'n' :: 'e' :: ':' :: v.toList from rfl]
    rw [show firstSubIdxL ('l' :: 'i' :: 'n' :: 'e' :: ':' :: v.toList) [':'] = some 4 from by
      simp [firstSubIdxL, List.isPrefixOf]]
    show (if takeS ("line:" ++ v) 4 = "kind" then _ else _) = _
    rw [show takeS ("line:" ++ v) 4 = "line" from rfl]
    rw [show trimSpace (dropS ("line:" ++ v) (4 + 1)) = trimSpace v from by
      rw [show dropS ("line:" ++ v) (4 + 1) = v from rfl]]
    rw [if_neg (by decide), if_pos rfl]

end Ctags

namespace Ctags

/-- Witness for the amended C8: the malformed value `"abc"` yields line
0, and a `line:-5` field stores the (negative) value `-5`. -/
theorem C8_line_parse_amended_witness :
    goAtoi "abc" = 0 ∧ parseField {} "" "line:-5" = ({ Line := -5 }, "") :=
  ⟨C8_line_parse_amended.1 "abc" (by decide),
   (show parseField {} "" "line:-5" = ({ Line := goAtoi (trimSpace "-5") }, "") from
      C8_line_parse_amended.2 {} "" "-5").trans (by decide)⟩

theorem isPrefixOf_spec {α : Type} [BEq α] [LawfulBEq α] (l1 l2 : List α) :
    l1.isPrefixOf l2 = true ↔ l1 <+: l2 :=
  List.isPrefixOf_iff_prefix

/-- The embedding of Go `strings.Contains` agrees with list-infix
containment. -/
theorem firstSubIdxL_isSome_iff_substring :
    ∀ (l sub : List Char), (firstSubIdxL l sub).isSome = true ↔ sub <:+: l := by
  intro l
  induction l with
  | nil =>
      intro sub
      constructor
      · intro hIs
        rcases hs : sub with _ | ⟨c, cs⟩
        · exact List.nil_infix
        · rw [hs] at hIs; simp [firstSubIdxL] at hIs
      · intro hIs
        have hnil : sub = [] := List.infix_nil.mp hIs
        subst hnil
        rfl
  | cons c rest ih =>
      intro sub
      by_cases hp : sub.isPrefixOf (c :: rest) = true
      · rw [firstSubIdxL, if_pos hp]
        simp only [Option.isSome_some, true_iff]
        exact ((isPrefixOf_spec sub (c :: rest)).mp hp).isInfix
      · rw [firstSubIdxL, if_neg hp, Option.isSome_map', ih sub, List.infix_cons_iff]
        constructor
        · exact Or.inr
        · rintro (hIs | hIs)
          · exact absurd ((isPrefixOf_spec sub (c :: rest)).mpr hIs) hp
          · exact hIs

theorem containsB_iff_substring (s sub : String) :
    containsB s sub = true ↔ sub.toList <:+: s.toList :=
  firstSubIdxL_isSome_iff_substring s.toList sub.toList

/-- The concrete two-record ctags output of the C10 end-to-end
scenario: two records for the same function, code containing
`"static "`, no prototype-kind record. -/
def rows10 : String :=
  "f\tmain.ino\t/^static void f() \x7b$/;\"\tkind:function\tline:3\tsignature:()\treturntype:void\nf\tmain.ino\t/^static void f() \x7b$/;\"\tkind:function\tline:9\tsignature:()\treturntype:void"

set_option maxRecDepth 8192 in
/-- C10: for an unskipped record whose prototype text does not start
with `"template"`, prototype generation sets the modifier text to
`"static"` (trimmed) iff the code snippet contains the literal
substring `"static "`, and to `""` otherwise; and the two-record
end-to-end scenario yields exactly one Prototype Record, with modifier
text `"static"`. -/
theorem C10_static_modifier :
    (∀ (ftm : Tag → String) (tags : List Tag) (i : Nat)
      (h : i < tags.length) (h2 : i < (addPrototypes ftm tags).length),
      (tags.get ⟨i, h⟩).SkipMe = false →
      keywordTemplate.toList.isPrefixOf (tags.get ⟨i, h⟩).Prototype.toList = false →
      (((addPrototypes ftm tags).get ⟨i, h2⟩).PrototypeModifiers = "static" ↔
        "static ".toList <:+: (tags.get ⟨i, h⟩).Code.toList) ∧
      (((addPrototypes ftm tags).get ⟨i, h2⟩).PrototypeModifiers = "static" ∨
        ((addPrototypes ftm tags).get ⟨i, h2⟩).PrototypeModifiers = "")) ∧
    (Parse ftm0 inX0 {} rows10 "main.ino").map (fun r => (r.2.1, r.2.2)) =
      some ([{ FunctionName := "f", PrototypeText := "void f();", Modifiers := "static",
               Line := 3 }], some 3) := by
  constructor
  · intro ftm tags i h h2 hskip hpro
    simp only [addPrototypes]
    rw [get_map_tags _ tags i h, if_neg (by rw [hskip]; simp)]
    unfold addPrototype
    rw [if_neg (fun hcontr => by
      rw [(goIndex_eq_zero_iff _ _).mp hcontr] at hpro; cases hpro)]
    by_cases hcb : containsB (tags.get ⟨i, h⟩).Code (keywordStatic ++ " ") = true
    · rw [if_pos hcb]
      refine ⟨⟨fun _ => (containsB_iff_substring _ _).mp hcb, fun _ => ?_⟩, Or.inl ?_⟩
      · show trimSpace (" " ++ keywordStatic) = "static"
        decide
      · show trimSpace (" " ++ keywordStatic) = "static"
        decide
    · rw [if_neg hcb]
      refine ⟨⟨fun hcontr => ?_, fun hinf => ?_⟩, Or.inr ?_⟩
      · exact absurd (show trimSpace "" = "static" from hcontr) (by decide)
      · exact absurd ((containsB_iff_substring _ _).mpr hinf) hcb
      · show trimSpace "" = ""
        decide
  · decide

/-- A concrete record for the C10 modifier witness. -/
def tagC10 : Tag :=
  { FunctionName := "f", Kind := "function",
    Prototype := "void f();", Code := "static void f() \x7b" }

/-- Witness for C10: a record whose code contains `"static "` gets
modifier text `"static"`. -/
theorem C10_static_modifier_witness :
    ((addPrototypes ftm0 [tagC10]).get ⟨0, by decide⟩).PrototypeModifiers = "static" :=
  ((C10_static_modifier.1 ftm0 [tagC10] 0 (by decide) (by decide) (by decide)
      (by decide)).1).mpr (by decide)

end Ctags
